import Mathlib

/-!
Verification of the mcplay playback controller (src/play.py).

Shallow embedding conventions:
* Playlist entries are Python objects compared by identity; we model each
  entry by a distinct natural-number id.  The per-object flags
  `PlaylistEntry.active` and `ListEntry.tagged` are modelled by the lists
  `activeIds` / `taggedIds` of ids whose flag is set (set semantics:
  inserting dedups, clearing removes all copies).
* `random.choice(l)` draws uniformly from `l`; we model the draw by an
  arbitrary oracle index `k : Nat`, reduced modulo `l.length`, so every
  element of `l` is a possible choice.
* Python `list.pop()` is `getLast?` / `dropLast`, `list.remove(x)` is
  `List.erase` (first occurrence), `del l[i]` is `List.eraseIdx`,
  `l.index(x)` is `List.indexOf`.
* Times and seconds are rationals (the float arithmetic the claims touch
  is exact: sign tests, doubling, `min`/`max`, addition of `0.002 * length`).
-/

namespace Mcplay

/-- State of `PlaylistWindow` (src/play.py:886-1121): the ordered track
buffer, the cursor `bufptr`, the per-entry `active`/`tagged` flags
(membership of the entry id), the `repeat`/`random`/`stop` mode flags and
the three random-walk pools. `rep` renders the Python attribute `repeat`
(a Lean keyword). -/
structure PW where
  buffer : List Nat
  bufptr : Nat
  activeIds : List Nat
  taggedIds : List Nat
  random : Bool
  rep : Bool
  stop : Bool
  random_prev : List Nat
  random_next : List Nat
  random_left : List Nat
deriving Repr, DecidableEq

/-- Set-semantics insertion into a flag list (flag turned on). -/
def insertId (t : Nat) (l : List Nat) : List Nat :=
  if t ∈ l then l else t :: l

/-- Set-semantics removal from a flag list (flag turned off). -/
def removeId (t : Nat) (l : List Nat) : List Nat :=
  l.filter (fun x => x ≠ t)

/-- `entry.set_active(value)` on the entry with id `t` (src/play.py:588). -/
def set_active (s : PW) (t : Nat) (value : Bool) : PW :=
  if value then { s with activeIds := insertId t s.activeIds }
  else { s with activeIds := removeId t s.activeIds }

/-- `PlaylistWindow.get_active_entry` (src/play.py:1034-1036): first buffer
entry whose active flag is set. -/
def get_active_entry (s : PW) : Option Nat :=
  s.buffer.find? (fun t => decide (t ∈ s.activeIds))

/-- The `bufptr` clamp done by `ListWindow.update` (src/play.py:409):
`self.bufptr = max(0, min(self.bufptr, len(self.buffer) - 1))`. -/
def updateClamp (s : PW) : PW :=
  { s with bufptr := min s.bufptr (s.buffer.length - 1) }

/-- Common tail of `change_active_entry` (src/play.py:1030-1032):
`new.set_active(1); self.update(); return new`. -/
def finish_new (s : PW) (n : Nat) : Option Nat × PW :=
  (some n, updateClamp (set_active s n true))

/-- Random-forward bookkeeping shared by the three drawing branches
(src/play.py:1014-1021): `try: self.random_prev.remove(new)` /
`except ValueError: pass` / `self.random_prev.append(new)` /
`old and old.set_active(0)`, then the common tail. -/
def random_finish (s : PW) (old : Option Nat) (n : Nat) : Option Nat × PW :=
  let s := { s with random_prev := (s.random_prev.erase n) ++ [n] }
  let s := match old with
    | some o => set_active s o false
    | none => s
  finish_new s n

/-- `PlaylistWindow.change_active_entry(direction)`
(src/play.py:1000-1032).  The oracle `k` resolves `random.choice`. -/
def change_active_entry (s : PW) (direction : Int) (k : Nat) : Option Nat × PW :=
  -- if not self.buffer: return
  if s.buffer = [] then (none, s) else
  -- old = self.get_active_entry()
  let old := get_active_entry s
  if s.random then
    if direction > 0 then
      -- if self.random_next: new = self.random_next.pop()
      match s.random_next.getLast? with
      | some n =>
          let s := { s with random_next := s.random_next.dropLast }
          random_finish s old n
      | none =>
          -- elif self.random_left: pass
          if s.random_left ≠ [] then
            -- if not new: new = random.choice(self.random_left);
            --             self.random_left.remove(new)
            let n := s.random_left.getD (k % s.random_left.length) 0
            let s := { s with random_left := s.random_left.erase n }
            random_finish s old n
          -- elif self.repeat: self.random_left = self.buffer[:]
          else if s.rep then
            let s := { s with random_left := s.buffer }
            let n := s.random_left.getD (k % s.random_left.length) 0
            let s := { s with random_left := s.random_left.erase n }
            random_finish s old n
          -- else: return
          else (none, s)
    else
      -- if len(self.random_prev) > 1:
      if s.random_prev.length > 1 then
        -- self.random_next.append(self.random_prev.pop())
        let a := s.random_prev.getLast?.getD 0
        let s := { s with random_prev := s.random_prev.dropLast,
                          random_next := s.random_next ++ [a] }
        -- new = self.random_prev[-1]
        let n := s.random_prev.getLast?.getD 0
        -- old and old.set_active(0)
        let s := match old with
          | some o => set_active s o false
          | none => s
        finish_new s n
      -- else: return
      else (none, s)
  else
    match old with
    | some o =>
        -- index = self.buffer.index(old)+direction
        let index : Int := (s.buffer.indexOf o : Int) + direction
        -- if not (0 <= index < len(self.buffer) or self.repeat): return
        if ¬ ((0 ≤ index ∧ index < (s.buffer.length : Int)) ∨ s.rep = true) then
          (none, s)
        else
          -- old.set_active(0)
          let s := set_active s o false
          -- new = self.buffer[index % len(self.buffer)]
          let n := s.buffer.getD (index % (s.buffer.length : Int)).toNat 0
          finish_new s n
    | none =>
        -- else: new = self.buffer[0]
        finish_new s (s.buffer.getD 0 0)

/-- `PlaylistWindow.command_play` (src/play.py:1044-1051).  Returns the
entry handed to `app.play` together with the updated window state. -/
def command_play (s : PW) : Option Nat × PW :=
  -- if not self.buffer: return
  if s.buffer = [] then (none, s) else
  -- entry = self.get_active_entry(); entry and entry.set_active(0)
  let s := match get_active_entry s with
    | some o => set_active s o false
    | none => s
  -- entry = self.current()   (ListWindow.current clamps bufptr, play.py:452-455)
  let ptr := min s.bufptr (s.buffer.length - 1)
  let s := { s with bufptr := ptr }
  let n := s.buffer.getD ptr 0
  -- entry.set_active(1); self.update()
  (some n, updateClamp (set_active s n true))

/-- `TagListWindow.not_tagged` (src/play.py:702-703) applied to a pool,
with the tagged flags read from `tagged`. -/
def not_tagged (tagged : List Nat) (l : List Nat) : List Nat :=
  l.filter (fun t => decide (t ∉ tagged))

/-- `PlaylistWindow.command_delete` (src/play.py:1053-1067). -/
def command_delete (s : PW) : PW :=
  -- if not self.buffer: return
  if s.buffer = [] then s else
  -- current_entry, n = self.current(), len(self.buffer)
  let ptr := min s.bufptr (s.buffer.length - 1)
  let s := { s with bufptr := ptr }
  let ce := s.buffer.getD ptr 0
  let n := s.buffer.length
  -- self.buffer = self.not_tagged(self.buffer)
  let buf1 := not_tagged s.taggedIds s.buffer
  let s1 :=
    if n > buf1.length then
      -- try: self.bufptr = self.buffer.index(current_entry)
      -- except ValueError: pass
      { s with buffer := buf1,
               bufptr := if ce ∈ buf1 then buf1.indexOf ce else s.bufptr }
    else
      -- else: current_entry.set_tagged(1); del self.buffer[self.bufptr]
      { s with taggedIds := ce :: s.taggedIds,
               buffer := buf1.eraseIdx s.bufptr }
  -- if self.random: filter all three pools through not_tagged
  let s2 :=
    if s1.random then
      { s1 with random_prev := not_tagged s1.taggedIds s1.random_prev,
                random_next := not_tagged s1.taggedIds s1.random_next,
                random_left := not_tagged s1.taggedIds s1.random_left }
    else s1
  updateClamp s2

/-- `PlaylistWindow.command_toggle_random` (src/play.py:1110-1114):
flips the flag and re-initialises the three pools. -/
def command_toggle_random (s : PW) : PW :=
  { s with random := !s.random,
           random_prev := [],
           random_next := [],
           random_left := s.buffer }

/-- One navigator operation, as enumerated by claim C3: toggling random,
advancing forward (with a choice oracle), advancing backward, deleting. -/
inductive NavOp
  | toggle
  | forward (k : Nat)
  | backward
  | delete
deriving Repr, DecidableEq

def navStep (s : PW) : NavOp → PW
  | .toggle => command_toggle_random s
  | .forward k => (change_active_entry s 1 k).2
  | .backward => (change_active_entry s (-1) 0).2
  | .delete => command_delete s

def runOps (s : PW) : List NavOp → PW
  | [] => s
  | op :: ops => runOps (navStep s op) ops

/-- The spec's pool invariant, as claim C3 states it: the multiset union of
the three pools accounts for every playlist track exactly once. -/
def ExactPartition (s : PW) : Prop :=
  ∀ t ∈ s.buffer, (s.random_prev ++ s.random_next ++ s.random_left).count t = 1

/-- The coverage invariant that actually holds: every playlist track is in
at least one of the three pools. -/
def PoolsCover (s : PW) : Prop :=
  ∀ t ∈ s.buffer, t ∈ s.random_prev ∨ t ∈ s.random_next ∨ t ∈ s.random_left

/-- At most one playlist entry has its active flag set
(spec: "Invariant: exactly 0 or 1 Track has active=true"). -/
def UniqActive (s : PW) : Prop :=
  ∀ a ∈ s.buffer, ∀ b ∈ s.buffer, a ∈ s.activeIds → b ∈ s.activeIds → a = b

instance (s : PW) : Decidable (ExactPartition s) := by
  unfold ExactPartition; infer_instance

instance (s : PW) : Decidable (PoolsCover s) := by
  unfold PoolsCover; infer_instance

instance (s : PW) : Decidable (UniqActive s) := by
  unfold UniqActive; infer_instance

/-! ## Player (src/play.py:1200-1315)

The supervised-process side is driven by two environment inputs: whether
`os.waitpid` still finds the child (`alive`), and the current wall-clock
time (`now`, in seconds, as an exact rational).  `spawns` counts calls of
`Player.play` (process creations).  The display callbacks `app.counter`,
`app.progress` and `app.set_default_status` are recorded in the state. -/

inductive StatusKind
  | empty
  | stoppedMsg
  | pausedMsg
  | playingMsg
deriving Repr, DecidableEq

structure PState where
  entry : Option Nat
  stopped : Bool
  paused : Bool
  step : ℚ
  offset : ℚ
  length : ℚ
  time_setup : Option ℚ
  spawns : Nat
  counterView : ℚ × ℚ
  progressView : ℚ
  defaultStatus : StatusKind
deriving Repr, DecidableEq

/-- `Player.update_status` (src/play.py:1305-1313). -/
def update_status (p : PState) : PState :=
  { p with defaultStatus :=
      if p.entry = none then .empty
      else if p.stopped then .stoppedMsg
      else if p.paused then .pausedMsg
      else .playingMsg }

/-- `Player.setup(entry, offset)` (src/play.py:1217-1232), success path of
the executable resolution (argv substitution carries no state). -/
def Player_setup (p : PState) (now : ℚ) (entry : Nat) (offset : ℚ) : PState :=
  let p := { p with entry := some entry, offset := offset }
  -- if offset == 0: app.progress(0); self.offset = 0; self.length = 0
  let p := if offset = 0 then { p with progressView := 0, offset := 0, length := 0 } else p
  { p with time_setup := some now }

/-- `Player.play` (src/play.py:1234-1246): fork/exec of the child (counted
by `spawns`), then clears the stopped/paused flags, zeroes the accumulated
seek step and refreshes the status line. -/
def Player_play (p : PState) : PState :=
  update_status { p with stopped := false, paused := false, step := 0,
                         spawns := p.spawns + 1 }

/-- `Player.stop(quiet)` (src/play.py:1248-1257): un-pause if paused
(successful signal delivery), signal the group until reaped, set
`stopped`; status refresh unless quiet. -/
def Player_stop (p : PState) (quiet : Bool) : PState :=
  let p := if p.paused then { p with paused := false } else p
  let p := { p with stopped := true }
  if quiet then p else update_status p

/-- `Player.show_position` (src/play.py:1302-1304):
`app.counter((offset, length-offset))` and
`app.progress(self.length and float(self.offset)/self.length)`. -/
def show_position (p : PState) : PState :=
  { p with counterView := (p.offset, p.length - p.offset),
           progressView := if p.length = 0 then 0 else p.offset / p.length }

/-- `Player.poll` (src/play.py:1275-1285).  `alive` is whether
`os.waitpid(pid, WNOHANG)` succeeds; the result is the Python return value
(`None` while alive, `0` after an in-grace-window re-spawn, `1` at
end-of-track). -/
def Player_poll (p : PState) (alive : Bool) (now : ℚ) : Option Nat × PState :=
  if alive then (none, p)
  else
    -- if self.time_setup and (time.time() - self.time_setup) < 2.0:
    match p.time_setup with
    | some t =>
        if now - t < 2 then (some 0, Player_play p)
        else (some 1, { p with defaultStatus := .empty,
                               counterView := (0, 0), progressView := 0 })
    | none => (some 1, { p with defaultStatus := .empty,
                                counterView := (0, 0), progressView := 0 })

/-- `Player.seek(offset, relative)` (src/play.py:1287-1295).  Note the
Python idioms: `self.step * (self.step * d > 0) + d` multiplies by the
boolean, and `(offset < 0) and self.length+offset or offset` yields
`offset` whenever `self.length+offset` is zero (falsy). -/
def Player_seek (p : PState) (offset : ℚ) (relative : Bool) : PState :=
  let p :=
    if relative then
      let d := offset * p.length * (2/1000)
      let step := (if p.step * d > 0 then p.step else 0) + d
      { p with step := step, offset := min p.length (max 0 (p.offset + step)) }
    else
      { p with step := 1,
               offset := if offset < 0 then
                           (if p.length + offset = 0 then offset else p.length + offset)
                         else offset }
  show_position p

/-- `Application.play(entry, offset)` (src/play.py:1572-1584), success path
of the backend-profile scan: stop the previous session quietly, set up the
matching player and spawn it. -/
def Application_play (p : PState) (now : ℚ) (e : Nat) (offset : ℚ) : PState :=
  Player_play (Player_setup (Player_stop p true) now e offset)

/-- `Application.toggle_stop` (src/play.py:1605-1608). -/
def toggle_stop (p : PState) (now : ℚ) : PState :=
  match p.entry with
  | none => p
  | some e =>
      if p.stopped = false then Player_stop p false
      else Application_play p now e p.offset

/-! ## Remote Control Channel (src/play.py:1408-1442)

`FIFOControl.__init__` opens the control FIFO in binary, unbuffered mode:
`self.fd = open(CONTROL_FIFO, "rb+", 0)` (src/play.py:1430).  Under
Python 3.7 (the file header says "Edited for Python 3.7"),
`self.fd.readline()` therefore yields `bytes`, not `str`.  We model byte
strings by `PyBytes` (ASCII contents as `List Char`), kept distinct from
text because Python 3 `bytes` and `str` neither compare equal nor mix as
`split` arguments. -/

/-- An ASCII byte string, as returned by `readline()` on the binary-mode
control FIFO. -/
structure PyBytes where
  data : List Char
deriving Repr, DecidableEq

/-- Python exceptions that can cross the `handle_command` boundary. -/
inductive PyExc
  | valueError
  | typeError
  | indexError
deriving Repr, DecidableEq

/-- `bytes.strip()` with no argument: drop surrounding ASCII whitespace
(well-defined on `bytes`, unlike the later split). -/
def bytes_strip (b : PyBytes) : PyBytes :=
  ⟨((b.data.dropWhile Char.isWhitespace).reverse.dropWhile
      Char.isWhitespace).reverse⟩

/-- `bytes.split(sep, maxsplit)` called with a `str` separator: Python 3
raises `TypeError` ("a bytes-like object is required, not str")
unconditionally, whatever the contents of the byte string. -/
def bytes_split_str (_b : PyBytes) (_sep : String) (_maxsplit : Nat) :
    Except PyExc (List PyBytes) :=
  .error .typeError

/-- Python 3 cross-type equality between `bytes` and `str` is always
`False` (for example `b"play" == "play"` is `False`), with no exception
raised. -/
def bytes_eq_str (_b : PyBytes) (_s : List Char) : Bool :=
  false

/-- The bound callables of the `FIFOControl.__init__` command table
(src/play.py:1409-1423); argument presets are baked into the
constructors. -/
inductive FIFOFunc
  | toggle_pause
  | next_song
  | prev_song
  | app_seek (offset : Int) (relative : Int)
  | toggle_stop
  | fifo_volume
  | run_macro_action
  | playlist_add
  | command_delete_all
  | app_quit
deriving Repr, DecidableEq

/-- The `self.commands` dictionary: verb, callable, and whether the stored
argument list is `None` (so that `argv[1:]` is passed). -/
def commands : List (List Char × FIFOFunc × Bool) :=
  [ ("pause".toList, .toggle_pause, false),
    ("next".toList, .next_song, false),
    ("prev".toList, .prev_song, false),
    ("forward".toList, .app_seek 1 1, false),
    ("backward".toList, .app_seek (-1) 1, false),
    ("play".toList, .toggle_stop, false),
    ("stop".toList, .toggle_stop, false),
    ("volume".toList, .fifo_volume, true),
    ("macro".toList, .run_macro_action, true),
    ("add".toList, .playlist_add, true),
    ("empty".toList, .command_delete_all, false),
    ("quit".toList, .app_quit, false) ]

/-- What a successfully handled command asks the orchestrator to do. -/
inductive FIFOEffect
  | ignored
  | invoke (f : FIFOFunc)
deriving Repr, DecidableEq

/-- The verb lookup and `f(*a)` dispatch that follow the split in
`handle_command` (src/play.py:1435-1438):
`if argv[0] in self.commands.keys(): f, a = self.commands[argv[0]]; ...;
f(*a)`.  Unreachable in the program, because the split has already raised;
kept to mirror the source text.  Note that even here a `bytes` `argv[0]`
would equal no `str` key of the dict, so every line would fall through as
an unknown verb. -/
def fifo_dispatch (argv : List PyBytes) : Except PyExc FIFOEffect :=
  match argv.head? with
  | none => .error .indexError  -- argv[0]; a split result is never empty
  | some verb =>
    match commands.find? (fun c => bytes_eq_str verb c.1) with
    | some (_, f, _) => .ok (.invoke f)  -- f(*a); no str key matches bytes
    | none => .ok .ignored

/-- `FIFOControl.handle_command` (src/play.py:1433-1438):
`argv = self.fd.readline().strip().split(" ", 1)`, then the table
dispatch.  `readline()` yields `bytes` (the FIFO was opened `"rb+"`);
`bytes.strip()` succeeds, but `.split(" ", 1)` passes a `str` separator to
`bytes.split`, which raises `TypeError` for every line — before the verb
lookup or any argument parsing (`FIFOControl.volume`'s `int(argv[1])`,
src/play.py:1440-1442, is never reached).  Neither `handle_command`, nor
the `select` loop in `Application.run` (which catches only
`select.error`), nor `main` (which cleans up and exits) handles the
exception. -/
def handle_command (line : PyBytes) : Except PyExc FIFOEffect := do
  let argv ← bytes_split_str (bytes_strip line) " " 1
  fifo_dispatch argv

/-! ## Theorems -/

/-! ### Active-flag bookkeeping lemmas -/

theorem mem_insertId {a t : Nat} {l : List Nat} :
    a ∈ insertId t l ↔ a = t ∨ a ∈ l := by
  unfold insertId
  by_cases h : t ∈ l
  · simp only [if_pos h]
    constructor
    · exact Or.inr
    · rintro (rfl | ha)
      · exact h
      · exact ha
  · simp [if_neg h, List.mem_cons]

theorem mem_removeId {a t : Nat} {l : List Nat} :
    a ∈ removeId t l ↔ a ∈ l ∧ a ≠ t := by
  simp [removeId, List.mem_filter]

theorem find?_unique {l : List Nat} {p : Nat → Bool} {n : Nat}
    (hn : n ∈ l) (hpn : p n = true)
    (huniq : ∀ t ∈ l, p t = true → t = n) :
    l.find? p = some n := by
  induction l with
  | nil => cases hn
  | cons h tl ih =>
    by_cases hph : p h = true
    · have he : h = n := huniq h (List.mem_cons_self h tl) hph
      rw [List.find?_cons_of_pos _ hph, he]
    · rw [List.find?_cons_of_neg _ hph]
      have hn' : n ∈ tl := by
        rcases List.mem_cons.mp hn with he | h'
        · exact absurd (he ▸ hpn) hph
        · exact h'
      exact ih hn' (fun t ht hpt => huniq t (List.mem_cons_of_mem _ ht) hpt)

/-- After clearing the unique flagged entry `o` and setting `n`, an entry
of the buffer is flagged exactly when it is `n`. -/
theorem mem_insert_remove_iff {buffer flags : List Nat} {n o t : Nat}
    (hu : ∀ a ∈ buffer, ∀ b ∈ buffer, a ∈ flags → b ∈ flags → a = b)
    (ho : buffer.find? (fun x => decide (x ∈ flags)) = some o)
    (ht : t ∈ buffer) :
    (t ∈ insertId n (removeId o flags) ↔ t = n) := by
  have hom : o ∈ buffer := List.mem_of_find?_eq_some ho
  have hof : o ∈ flags := by
    have := List.find?_some ho
    simpa using this
  rw [mem_insertId]
  constructor
  · rintro (rfl | hmem)
    · rfl
    · rcases mem_removeId.mp hmem with ⟨hmem', hne⟩
      exact absurd (hu t ht o hom hmem' hof) hne
  · exact fun h => Or.inl h

/-- If no buffer entry is flagged, setting `n` makes a buffer entry
flagged exactly when it is `n`. -/
theorem mem_insert_iff_of_none {buffer flags : List Nat} {n t : Nat}
    (hnone : buffer.find? (fun x => decide (x ∈ flags)) = none)
    (ht : t ∈ buffer) :
    (t ∈ insertId n flags ↔ t = n) := by
  have hno : t ∉ flags := by
    have := List.find?_eq_none.mp hnone t ht
    simpa using this
  rw [mem_insertId]
  constructor
  · rintro (rfl | hmem)
    · rfl
    · exact absurd hmem hno
  · exact fun h => Or.inl h

/-- The first flagged buffer entry after clear-then-set is the newly set
one (provided it is in the buffer). -/
theorem find?_insert_remove {buffer flags : List Nat} {n o : Nat}
    (hu : ∀ a ∈ buffer, ∀ b ∈ buffer, a ∈ flags → b ∈ flags → a = b)
    (ho : buffer.find? (fun x => decide (x ∈ flags)) = some o)
    (hn : n ∈ buffer) :
    buffer.find? (fun x => decide (x ∈ insertId n (removeId o flags))) = some n := by
  apply find?_unique hn
  · simp [mem_insert_remove_iff hu ho hn]
  · intro t ht hpt
    exact (mem_insert_remove_iff hu ho ht).mp (by simpa using hpt)

theorem find?_insert_of_none {buffer flags : List Nat} {n : Nat}
    (hnone : buffer.find? (fun x => decide (x ∈ flags)) = none)
    (hn : n ∈ buffer) :
    buffer.find? (fun x => decide (x ∈ insertId n flags)) = some n := by
  apply find?_unique hn
  · simp [mem_insert_iff_of_none hnone hn]
  · intro t ht hpt
    exact (mem_insert_iff_of_none hnone ht).mp (by simpa using hpt)

/-- Whatever branch `change_active_entry` takes, the buffer is untouched
and the active flags either stay, or are `insertId n` after clearing the
previously active entry (if any). -/
theorem change_active_entry_flags (s : PW) (d : Int) (k : Nat) :
    (change_active_entry s d k).2.buffer = s.buffer ∧
    ((change_active_entry s d k).2.activeIds = s.activeIds ∨
     (get_active_entry s = none ∧
       ∃ n, (change_active_entry s d k).2.activeIds = insertId n s.activeIds) ∨
     (∃ o, get_active_entry s = some o ∧
       ∃ n, (change_active_entry s d k).2.activeIds = insertId n (removeId o s.activeIds))) := by
  by_cases hb : s.buffer = []
  · constructor
    · simp [change_active_entry, hb]
    · exact Or.inl (by simp [change_active_entry, hb])
  · cases hold : get_active_entry s with
    | none =>
      cases hrb : s.random with
      | true =>
        by_cases hd : d > 0
        · cases hnx : s.random_next.getLast? with
          | some n =>
            constructor
            · simp [change_active_entry, random_finish, finish_new, set_active,
                    updateClamp, hb, hrb, hd, hnx, hold]
            · exact Or.inr (Or.inl ⟨rfl, n,
                by simp [change_active_entry, random_finish, finish_new, set_active,
                         updateClamp, hb, hrb, hd, hnx, hold]⟩)
          | none =>
            by_cases hl : s.random_left = []
            · cases hrep : s.rep with
              | true =>
                constructor
                · simp [change_active_entry, random_finish, finish_new, set_active,
                        updateClamp, hb, hrb, hd, hnx, hl, hrep, hold]
                · exact Or.inr (Or.inl ⟨rfl, s.buffer.getD (k % s.buffer.length) 0,
                    by simp [change_active_entry, random_finish, finish_new, set_active,
                             updateClamp, hb, hrb, hd, hnx, hl, hrep, hold]⟩)
              | false =>
                constructor
                · simp [change_active_entry, hb, hrb, hd, hnx, hl, hrep]
                · exact Or.inl (by simp [change_active_entry, hb, hrb, hd, hnx, hl, hrep])
            · constructor
              · simp [change_active_entry, random_finish, finish_new, set_active,
                      updateClamp, hb, hrb, hd, hnx, hl, hold]
              · exact Or.inr (Or.inl ⟨rfl,
                  s.random_left.getD (k % s.random_left.length) 0,
                  by simp [change_active_entry, random_finish, finish_new, set_active,
                           updateClamp, hb, hrb, hd, hnx, hl, hold]⟩)
        · by_cases hp : s.random_prev.length > 1
          · constructor
            · simp [change_active_entry, finish_new, set_active,
                    updateClamp, hb, hrb, hd, hp, hold]
            · exact Or.inr (Or.inl ⟨rfl, (s.random_prev.dropLast).getLast?.getD 0,
                by simp [change_active_entry, finish_new, set_active,
                         updateClamp, hb, hrb, hd, hp, hold]⟩)
          · constructor
            · simp [change_active_entry, hb, hrb, hd, hp]
            · exact Or.inl (by simp [change_active_entry, hb, hrb, hd, hp])
      | false =>
        constructor
        · simp [change_active_entry, finish_new, set_active, updateClamp, hb, hrb, hold]
        · exact Or.inr (Or.inl ⟨rfl, s.buffer.getD 0 0,
            by simp [change_active_entry, finish_new, set_active, updateClamp,
                     hb, hrb, hold]⟩)
    | some o =>
      cases hrb : s.random with
      | true =>
        by_cases hd : d > 0
        · cases hnx : s.random_next.getLast? with
          | some n =>
            constructor
            · simp [change_active_entry, random_finish, finish_new, set_active,
                    updateClamp, hb, hrb, hd, hnx, hold]
            · exact Or.inr (Or.inr ⟨o, rfl, n,
                by simp [change_active_entry, random_finish, finish_new, set_active,
                         updateClamp, hb, hrb, hd, hnx, hold]⟩)
          | none =>
            by_cases hl : s.random_left = []
            · cases hrep : s.rep with
              | true =>
                constructor
                · simp [change_active_entry, random_finish, finish_new, set_active,
                        updateClamp, hb, hrb, hd, hnx, hl, hrep, hold]
                · exact Or.inr (Or.inr ⟨o, rfl, s.buffer.getD (k % s.buffer.length) 0,
                    by simp [change_active_entry, random_finish, finish_new, set_active,
                             updateClamp, hb, hrb, hd, hnx, hl, hrep, hold]⟩)
              | false =>
                constructor
                · simp [change_active_entry, hb, hrb, hd, hnx, hl, hrep]
                · exact Or.inl (by simp [change_active_entry, hb, hrb, hd, hnx, hl, hrep])
            · constructor
              · simp [change_active_entry, random_finish, finish_new, set_active,
                      updateClamp, hb, hrb, hd, hnx, hl, hold]
              · exact Or.inr (Or.inr ⟨o, rfl,
                  s.random_left.getD (k % s.random_left.length) 0,
                  by simp [change_active_entry, random_finish, finish_new, set_active,
                           updateClamp, hb, hrb, hd, hnx, hl, hold]⟩)
        · by_cases hp : s.random_prev.length > 1
          · constructor
            · simp [change_active_entry, finish_new, set_active,
                    updateClamp, hb, hrb, hd, hp, hold]
            · exact Or.inr (Or.inr ⟨o, rfl, (s.random_prev.dropLast).getLast?.getD 0,
                by simp [change_active_entry, finish_new, set_active,
                         updateClamp, hb, hrb, hd, hp, hold]⟩)
          · constructor
            · simp [change_active_entry, hb, hrb, hd, hp]
            · exact Or.inl (by simp [change_active_entry, hb, hrb, hd, hp])
      | false =>
        by_cases hio : ¬ ((0 ≤ (s.buffer.indexOf o : Int) + d ∧
            (s.buffer.indexOf o : Int) + d < (s.buffer.length : Int)) ∨ s.rep = true)
        · constructor
          · simp only [change_active_entry, if_neg hb, hrb, hold]
            simp [hio]
          · exact Or.inl (by
              simp only [change_active_entry, if_neg hb, hrb, hold]
              simp [hio])
        · constructor
          · simp only [change_active_entry, if_neg hb, hrb, hold]
            simp [hio, finish_new, set_active, updateClamp]
          · exact Or.inr (Or.inr ⟨o, rfl,
              s.buffer.getD ((((s.buffer.indexOf o : Int) + d) %
                (s.buffer.length : Int)).toNat) 0,
              by
                simp only [change_active_entry, if_neg hb, hrb, hold]
                simp [hio, finish_new, set_active, updateClamp]⟩)

/-- `command_play` likewise only rewrites the active flags via
clear-then-set and leaves the buffer unchanged. -/
theorem command_play_flags (s : PW) :
    (command_play s).2.buffer = s.buffer ∧
    ((command_play s).2.activeIds = s.activeIds ∨
     (get_active_entry s = none ∧
       ∃ n, (command_play s).2.activeIds = insertId n s.activeIds) ∨
     (∃ o, get_active_entry s = some o ∧
       ∃ n, (command_play s).2.activeIds = insertId n (removeId o s.activeIds))) := by
  by_cases hb : s.buffer = []
  · constructor
    · simp [command_play, hb]
    · exact Or.inl (by simp [command_play, hb])
  · cases hold : get_active_entry s with
    | none =>
      constructor
      · simp [command_play, set_active, updateClamp, hb, hold]
      · exact Or.inr (Or.inl ⟨rfl,
          s.buffer.getD (min s.bufptr (s.buffer.length - 1)) 0,
          by simp [command_play, set_active, updateClamp, hb, hold]⟩)
    | some o =>
      constructor
      · simp [command_play, set_active, updateClamp, hb, hold]
      · exact Or.inr (Or.inr ⟨o, rfl,
          s.buffer.getD (min s.bufptr (s.buffer.length - 1)) 0,
          by simp [command_play, set_active, updateClamp, hb, hold]⟩)

theorem Player_seek_rel_step (p : PState) (o : ℚ) :
    (Player_seek p o true).step =
      (if p.step * (o * p.length * (2/1000)) > 0 then p.step else 0)
        + o * p.length * (2/1000) := rfl

theorem Player_seek_rel_offset (p : PState) (o : ℚ) :
    (Player_seek p o true).offset =
      min p.length (max 0 (p.offset + (Player_seek p o true).step)) := rfl

theorem Player_seek_length (p : PState) (o : ℚ) (r : Bool) :
    (Player_seek p o r).length = p.length := by
  cases r <;> rfl

/-- C4: a relative seek of direction `o` accumulates
`step := step + o * 0.002 * length` when `o * 0.002 * length` has the same
sign as the current step, resets `step` to `o * 0.002 * length` when the
direction reverses, and clamps the resulting offset to `[0, length]`; in
particular two forward seeks followed by one backward seek net a step
equal to the backward request alone. -/
theorem C4_relative_seek_accumulation (p : PState) (o : ℚ) (hL : 0 ≤ p.length) :
    (p.step * (o * p.length * (2/1000)) > 0 →
      (Player_seek p o true).step = p.step + o * p.length * (2/1000)) ∧
    (p.step * (o * p.length * (2/1000)) < 0 →
      (Player_seek p o true).step = o * p.length * (2/1000)) ∧
    0 ≤ (Player_seek p o true).offset ∧
    (Player_seek p o true).offset ≤ p.length ∧
    (0 < p.length → p.step = 0 →
      (Player_seek (Player_seek (Player_seek p 1 true) 1 true) (-1) true).step
        = (-1) * p.length * (2/1000)) := by
  refine ⟨?_, ?_, ?_, ?_, ?_⟩
  · intro h
    rw [Player_seek_rel_step, if_pos h]
  · intro h
    rw [Player_seek_rel_step, if_neg (by linarith), zero_add]
  · rw [Player_seek_rel_offset]
    exact le_min hL (le_max_left 0 _)
  · rw [Player_seek_rel_offset]
    exact min_le_left _ _
  · intro hL0 hstep
    have hd : (0:ℚ) < 1 * p.length * (2/1000) := by
      have := mul_pos hL0 (show (0:ℚ) < 2/1000 by norm_num)
      linarith
    have h1 : (Player_seek p 1 true).step = 1 * p.length * (2/1000) := by
      rw [Player_seek_rel_step, hstep, if_neg (by simp), zero_add]
    have hlen1 : (Player_seek p 1 true).length = p.length := Player_seek_length p 1 true
    have h2 : (Player_seek (Player_seek p 1 true) 1 true).step =
        1 * p.length * (2/1000) + 1 * p.length * (2/1000) := by
      rw [Player_seek_rel_step, hlen1, h1, if_pos (by nlinarith)]
    have hlen2 : (Player_seek (Player_seek p 1 true) 1 true).length = p.length := by
      rw [Player_seek_length, hlen1]
    rw [Player_seek_rel_step, hlen2, h2, if_neg (by nlinarith), zero_add]

def pC4 : PState :=
  ⟨some 0, false, false, 1/5, 20, 100, some 0, 1, (0, 0), 0, .playingMsg⟩

theorem C4_relative_seek_accumulation_witness :
    (Player_seek pC4 1 true).step = pC4.step + 1 * pC4.length * (2/1000) :=
  (C4_relative_seek_accumulation pC4 1 (by norm_num [pC4])).1 (by norm_num [pC4])

def pC9 : PState :=
  ⟨some 0, false, false, 0, 50, 100, some 0, 1, (0, 0), 0, .playingMsg⟩

/-- C9: the claim says an absolute seek with negative requested offset `o`
always lands at `length + o`.  The code's `(offset < 0) and
self.length+offset or offset` idiom returns `offset` itself when
`length + offset` equals zero, so seeking to exactly `-length` leaves the
playback offset at the negative request instead of `0`; away from that
boundary the claim's formula does hold. -/
theorem C9_absolute_seek_boundary_bug :
    (Player_seek pC9 (-100) false).offset = -100 ∧
    pC9.length + (-100) = 0 ∧
    (Player_seek pC9 (-30) false).offset = pC9.length + (-30) := by
  refine ⟨?_, ?_, ?_⟩ <;> norm_num [Player_seek, show_position, pC9]

def pC5 : PState :=
  ⟨some 0, false, false, 0, 0, 100, some 0, 1, (5, 5), 1/2, .playingMsg⟩

/-- C5 counterexample: the claim says that after the single automatic
re-spawn inside the 2-second grace window, a recurring process
disappearance "falls through to end-of-track handling".  In the code
`poll` re-spawns on every call within the window (`time_setup` is not
renewed and no attempt counter exists): a second poll with the process
gone again, still inside the window, performs a second spawn and again
reports not-ended. -/
theorem C5_second_respawn_within_grace :
    (Player_poll pC5 false 1).1 = some 0 ∧
    (Player_poll pC5 false 1).2.spawns = pC5.spawns + 1 ∧
    (Player_poll (Player_poll pC5 false 1).2 false 1).1 = some 0 ∧
    (Player_poll (Player_poll pC5 false 1).2 false 1).2.spawns = pC5.spawns + 2 ∧
    (Player_poll (Player_poll pC5 false 1).2 false 1).1 ≠ some 1 := by
  refine ⟨?_, ?_, ?_, ?_, ?_⟩ <;>
    norm_num [Player_poll, Player_play, update_status, pC5]

/-- C5 amended: on every `poll` call with the process gone, the code
re-spawns whenever the call happens less than 2 seconds after `setup`
(reporting not-ended), however often that recurs; at or beyond 2 seconds
it resets the displayed counter and progress to zero and reports ended. -/
theorem C5_poll_grace_window (p : PState) (now t : ℚ)
    (hts : p.time_setup = some t) :
    Player_poll p true now = (none, p) ∧
    (now - t < 2 →
      Player_poll p false now = (some 0, Player_play p) ∧
      (Player_play p).spawns = p.spawns + 1) ∧
    (¬ now - t < 2 →
      Player_poll p false now =
        (some 1, { p with defaultStatus := .empty,
                          counterView := (0, 0), progressView := 0 })) := by
  refine ⟨rfl, ?_, ?_⟩
  · intro h
    constructor
    · simp [Player_poll, hts, if_pos h]
    · rfl
  · intro h
    simp [Player_poll, hts, if_neg h]

theorem C5_poll_grace_window_witness :
    Player_poll pC5 false 1 = (some 0, Player_play pC5) :=
  ((C5_poll_grace_window pC5 1 0 rfl).2.1 (by norm_num)).1

/-- C6: the claim says a `volume` line with a malformed numeric argument
must not raise past `FIFOControl.handle_command` and leaves playback
state unchanged.  In the code the control FIFO is opened in binary mode,
so every line read is `bytes`, and `bytes.split(" ", 1)` raises
`TypeError` before the verb lookup: handling the malformed line — and
indeed any line at all, well-formed `volume 0 55` included — raises past
the `handle_command` boundary (`FIFOControl.volume`'s `int(argv[1])` is
never even reached), and nothing in `Application.run` or `main` catches
the exception short of terminating the event loop. -/
theorem C6_volume_malformed_escapes :
    handle_command ⟨"volume 0 5x".toList⟩ = .error .typeError ∧
    handle_command ⟨"volume 0 55".toList⟩ = .error .typeError ∧
    (∀ line : PyBytes, handle_command line = .error .typeError) := by
  exact ⟨rfl, rfl, fun line => rfl⟩

def pC10 : PState :=
  ⟨some 3, true, false, 0, 7, 100, some 0, 1, (0, 0), 0, .stoppedMsg⟩

def pC10b : PState :=
  ⟨some 3, false, false, 0, 7, 100, some 0, 1, (0, 0), 0, .playingMsg⟩

/-- C10: the command table does bind the verbs `play` and `stop` to the
identical entry (`app.toggle_stop` with an empty preset argument list),
and `Application.toggle_stop` itself re-launches the current entry at the
current offset when stopped (`pC10`) and stops the player when playing
(`pC10b`).  But handling the lines `play` and `stop` never reaches that
operation: both produce the identical outcome of a `TypeError` raised at
`bytes.split(" ", 1)`, escaping `handle_command`, instead of the
stop/restart transition the claim asserts. -/
theorem C10_play_stop_bound_but_never_dispatched :
    commands.find? (fun c => c.1 = "play".toList) =
      some ("play".toList, FIFOFunc.toggle_stop, false) ∧
    commands.find? (fun c => c.1 = "stop".toList) =
      some ("stop".toList, FIFOFunc.toggle_stop, false) ∧
    handle_command ⟨"play".toList⟩ = handle_command ⟨"stop".toList⟩ ∧
    handle_command ⟨"play".toList⟩ = .error .typeError ∧
    toggle_stop pC10 5 = Application_play pC10 5 3 pC10.offset ∧
    toggle_stop pC10b 5 = Player_stop pC10b false := by
  exact ⟨rfl, rfl, rfl, rfl, rfl, rfl⟩

end Mcplay

namespace Mcplay

/-- Restricted to the buffer, the flags produced by a clear-then-set step
mark only the new entry; hence at most one entry stays active. -/
theorem uniq_of_clear_set {s : PW} {flags : List Nat}
    (hu : UniqActive s)
    (hflags : flags = s.activeIds ∨
      (get_active_entry s = none ∧ ∃ n, flags = insertId n s.activeIds) ∨
      (∃ o, get_active_entry s = some o ∧
        ∃ n, flags = insertId n (removeId o s.activeIds))) :
    ∀ a ∈ s.buffer, ∀ b ∈ s.buffer, a ∈ flags → b ∈ flags → a = b := by
  rcases hflags with h | ⟨hnone, n, h⟩ | ⟨o, ho, n, h⟩
  · subst h; exact hu
  · subst h
    intro a ha b hb hfa hfb
    simp only [get_active_entry] at hnone
    rw [(mem_insert_iff_of_none hnone ha).mp hfa,
        (mem_insert_iff_of_none hnone hb).mp hfb]
  · subst h
    intro a ha b hb hfa hfb
    simp only [get_active_entry] at ho
    rw [(mem_insert_remove_iff hu ho ha).mp hfa,
        (mem_insert_remove_iff hu ho hb).mp hfb]

/-- C8: every active-track change — `change_active_entry` in either mode
and either direction, and `command_play` — preserves the invariant that at
most one playlist entry has its active flag set: the previously active
entry is cleared before the new one is set. -/
theorem C8_active_uniqueness_preserved (s : PW) (d : Int) (k : Nat)
    (hu : UniqActive s) :
    UniqActive (change_active_entry s d k).2 ∧
    UniqActive (command_play s).2 := by
  constructor
  · obtain ⟨hbuf, hact⟩ := change_active_entry_flags s d k
    intro a ha b hb hfa hfb
    rw [hbuf] at ha hb
    exact uniq_of_clear_set hu hact a ha b hb hfa hfb
  · obtain ⟨hbuf, hact⟩ := command_play_flags s
    intro a ha b hb hfa hfb
    rw [hbuf] at ha hb
    exact uniq_of_clear_set hu hact a ha b hb hfa hfb

def sC8 : PW := ⟨[0, 1, 2], 1, [1], [], false, false, false, [], [], []⟩

theorem C8_active_uniqueness_preserved_witness :
    UniqActive (change_active_entry sC8 1 0).2 ∧ UniqActive (command_play sC8).2 :=
  C8_active_uniqueness_preserved sC8 1 0 (by decide)

end Mcplay

namespace Mcplay

/-- After a clear-then-set step landing on a buffer entry `n`, the first
active buffer entry is `n`. -/
theorem get_active_entry_after_set {s X : PW} {n : Nat}
    (hbuf : X.buffer = s.buffer)
    (hu : UniqActive s)
    (hn : n ∈ s.buffer)
    (hact : (get_active_entry s = none ∧ X.activeIds = insertId n s.activeIds) ∨
            (∃ o, get_active_entry s = some o ∧
              X.activeIds = insertId n (removeId o s.activeIds))) :
    get_active_entry X = some n := by
  unfold get_active_entry
  rw [hbuf]
  rcases hact with ⟨hnone, h⟩ | ⟨o, ho, h⟩
  · rw [h]
    simp only [get_active_entry] at hnone
    exact find?_insert_of_none hnone hn
  · rw [h]
    simp only [get_active_entry] at ho
    exact find?_insert_remove hu ho hn

theorem getD_mem_of_lt {l : List Nat} {i : Nat} (h : i < l.length) :
    l.getD i 0 ∈ l := by
  rw [List.getD_eq_getElem l 0 h]
  exact List.getElem_mem h

/-- C7: sequential navigation.  With no active track any advance starts at
index 0; a forward advance from the last track returns `none` and changes
nothing when repeat is off and wraps to index 0 when repeat is on;
symmetrically a backward advance from index 0 returns `none` or wraps to
the last track; a forward advance strictly inside the list moves to the
next index.  Together these give the [A,B,C] scenario: three forward
advances return A, B, C and a fourth returns `none`. -/
theorem C7_sequential_navigation (s : PW) (k : Nat)
    (hr : s.random = false) (hb : s.buffer ≠ []) (hu : UniqActive s) :
    (get_active_entry s = none →
      (change_active_entry s 1 k).1 = some (s.buffer.getD 0 0) ∧
      get_active_entry (change_active_entry s 1 k).2 = some (s.buffer.getD 0 0)) ∧
    (∀ a, get_active_entry s = some a →
      s.buffer.indexOf a = s.buffer.length - 1 → s.rep = false →
      change_active_entry s 1 k = (none, s)) ∧
    (∀ a, get_active_entry s = some a →
      s.buffer.indexOf a = s.buffer.length - 1 → s.rep = true →
      (change_active_entry s 1 k).1 = some (s.buffer.getD 0 0) ∧
      get_active_entry (change_active_entry s 1 k).2 = some (s.buffer.getD 0 0)) ∧
    (∀ a, get_active_entry s = some a →
      s.buffer.indexOf a = 0 → s.rep = false →
      change_active_entry s (-1) k = (none, s)) ∧
    (∀ a, get_active_entry s = some a →
      s.buffer.indexOf a = 0 → s.rep = true →
      (change_active_entry s (-1) k).1 = some (s.buffer.getD (s.buffer.length - 1) 0) ∧
      get_active_entry (change_active_entry s (-1) k).2 =
        some (s.buffer.getD (s.buffer.length - 1) 0)) ∧
    (∀ a i, get_active_entry s = some a →
      s.buffer.indexOf a = i → i + 1 < s.buffer.length →
      (change_active_entry s 1 k).1 = some (s.buffer.getD (i + 1) 0) ∧
      get_active_entry (change_active_entry s 1 k).2 = some (s.buffer.getD (i + 1) 0)) := by
  have hlen : 0 < s.buffer.length := List.length_pos.mpr hb
  refine ⟨?_, ?_, ?_, ?_, ?_, ?_⟩
  · -- no active entry: first advance lands on index 0
    intro hold
    constructor
    · simp [change_active_entry, hb, hr, hold, finish_new]
    · refine get_active_entry_after_set (change_active_entry_flags s 1 k).1 hu
        (getD_mem_of_lt hlen) (Or.inl ⟨hold, ?_⟩)
      simp [change_active_entry, hb, hr, hold, finish_new, set_active, updateClamp]
  · -- at the last index, repeat off: refuse to move
    intro a hold hi hrep
    have hguard : ¬ ((0 ≤ (s.buffer.indexOf a : Int) + 1 ∧
        (s.buffer.indexOf a : Int) + 1 < (s.buffer.length : Int)) ∨ s.rep = true) := by
      rw [hi, hrep]
      rintro (⟨h1, h2⟩ | habs)
      · omega
      · simp at habs
    simp [change_active_entry, hb, hr, hold, hguard]
  · -- at the last index, repeat on: wrap to index 0
    intro a hold hi hrep
    have hguard : ((0 ≤ (s.buffer.indexOf a : Int) + 1 ∧
        (s.buffer.indexOf a : Int) + 1 < (s.buffer.length : Int)) ∨ s.rep = true) :=
      Or.inr hrep
    have hidx : (((s.buffer.indexOf a : Int) + 1) % (s.buffer.length : Int)).toNat = 0 := by
      rw [hi]
      have hc : ((s.buffer.length - 1 : Nat) : Int) + 1 = (s.buffer.length : Int) := by omega
      rw [hc, Int.emod_self]
      rfl
    constructor
    · simp [change_active_entry, hb, hr, hold, hguard, hidx, finish_new, set_active]
    · refine get_active_entry_after_set (change_active_entry_flags s 1 k).1 hu
        (getD_mem_of_lt hlen) (Or.inr ⟨a, hold, ?_⟩)
      simp [change_active_entry, hb, hr, hold, hguard, hidx, finish_new, set_active,
            updateClamp]
  · -- at index 0, repeat off: refuse to move backward
    intro a hold hi hrep
    simp [change_active_entry, hb, hr, hold, hi, hrep]
  · -- at index 0, repeat on: wrap to the last index
    intro a hold hi hrep
    have hlast : s.buffer.length - 1 < s.buffer.length := by omega
    have hneg : ((-1 : Int) % (s.buffer.length : Int)).toNat = s.buffer.length - 1 := by
      have h1 : ((-1 : Int) + (s.buffer.length : Int) * 1) % (s.buffer.length : Int) =
          (-1 : Int) % (s.buffer.length : Int) :=
        Int.add_mul_emod_self_left (-1) (s.buffer.length : Int) 1
      have h2 : ((-1 : Int) + (s.buffer.length : Int) * 1) % (s.buffer.length : Int) =
          (-1 : Int) + (s.buffer.length : Int) * 1 :=
        Int.emod_eq_of_lt (by omega) (by omega)
      omega
    have hidx : (((s.buffer.indexOf a : Int) + (-1)) % (s.buffer.length : Int)).toNat =
        s.buffer.length - 1 := by
      rw [hi]
      have h0 : (((0 : Nat) : Int) + (-1)) = (-1 : Int) := by norm_num
      rw [h0, hneg]
    constructor
    · simp [change_active_entry, hb, hr, hold, hi, hrep, hidx, finish_new, set_active]
      rw [hneg]
    · refine get_active_entry_after_set (change_active_entry_flags s (-1) k).1 hu
        (getD_mem_of_lt hlast) (Or.inr ⟨a, hold, ?_⟩)
      simp [change_active_entry, hb, hr, hold, hi, hrep, hidx, finish_new, set_active,
            updateClamp]
      rw [hneg]
  · -- strictly inside the list: forward moves to the next index
    intro a i hold hi hnext
    have hguard : ((0 ≤ (s.buffer.indexOf a : Int) + 1 ∧
        (s.buffer.indexOf a : Int) + 1 < (s.buffer.length : Int)) ∨ s.rep = true) := by
      rw [hi]
      exact Or.inl ⟨by omega, by omega⟩
    have hidx : (((s.buffer.indexOf a : Int) + 1) % (s.buffer.length : Int)).toNat =
        i + 1 := by
      rw [hi]
      have hm : ((i : Int) + 1) % (s.buffer.length : Int) = (i : Int) + 1 :=
        Int.emod_eq_of_lt (by omega) (by omega)
      rw [hm]
      omega
    constructor
    · simp [change_active_entry, hb, hr, hold, hguard, hidx, finish_new, set_active]
    · refine get_active_entry_after_set (change_active_entry_flags s 1 k).1 hu
        (getD_mem_of_lt hnext) (Or.inr ⟨a, hold, ?_⟩)
      simp [change_active_entry, hb, hr, hold, hguard, hidx, finish_new, set_active,
            updateClamp]

def sC7 : PW := ⟨[0, 1, 2], 0, [2], [], false, false, false, [], [], []⟩

theorem C7_sequential_navigation_witness :
    change_active_entry sC7 1 0 = (none, sC7) :=
  (C7_sequential_navigation sC7 0 rfl (by decide) (by decide)).2.1
    2 (by decide) (by decide) rfl

end Mcplay

namespace Mcplay

/-- C1: random-mode forward advance.  If the redo stack `random_next` is
non-empty its tail is popped and returned; otherwise a track is drawn from
`random_left` (modelled by an arbitrary choice index) and removed from it;
otherwise, with repeat on, `random_left` is refilled from the whole buffer
and the draw happens there; otherwise nothing changes and `none` is
returned.  The chosen track is erased from `random_prev` if present,
appended at its tail, and becomes the single active track. -/
theorem C1_random_forward (s : PW) (k : Nat)
    (hr : s.random = true) (hb : s.buffer ≠ []) (hu : UniqActive s)
    (hnextb : ∀ t ∈ s.random_next, t ∈ s.buffer)
    (hleftb : ∀ t ∈ s.random_left, t ∈ s.buffer) :
    (∀ n, s.random_next.getLast? = some n →
      (change_active_entry s 1 k).1 = some n ∧
      (change_active_entry s 1 k).2.random_next = s.random_next.dropLast ∧
      (change_active_entry s 1 k).2.random_left = s.random_left ∧
      (change_active_entry s 1 k).2.random_prev = s.random_prev.erase n ++ [n] ∧
      get_active_entry (change_active_entry s 1 k).2 = some n) ∧
    (s.random_next = [] → s.random_left ≠ [] →
      ∃ n, n = s.random_left.getD (k % s.random_left.length) 0 ∧
        n ∈ s.random_left ∧
        (change_active_entry s 1 k).1 = some n ∧
        (change_active_entry s 1 k).2.random_left = s.random_left.erase n ∧
        (change_active_entry s 1 k).2.random_next = [] ∧
        (change_active_entry s 1 k).2.random_prev = s.random_prev.erase n ++ [n] ∧
        get_active_entry (change_active_entry s 1 k).2 = some n) ∧
    (s.random_next = [] → s.random_left = [] → s.rep = true →
      ∃ n, n = s.buffer.getD (k % s.buffer.length) 0 ∧
        n ∈ s.buffer ∧
        (change_active_entry s 1 k).1 = some n ∧
        (change_active_entry s 1 k).2.random_left = s.buffer.erase n ∧
        (change_active_entry s 1 k).2.random_next = [] ∧
        (change_active_entry s 1 k).2.random_prev = s.random_prev.erase n ++ [n] ∧
        get_active_entry (change_active_entry s 1 k).2 = some n) ∧
    (s.random_next = [] → s.random_left = [] → s.rep = false →
      change_active_entry s 1 k = (none, s)) := by
  have hbuf := (change_active_entry_flags s 1 k).1
  refine ⟨?_, ?_, ?_, ?_⟩
  · -- pop the redo stack
    intro n hnx
    have hnmem : n ∈ s.buffer := hnextb n (List.mem_of_mem_getLast? hnx)
    refine ⟨?_, ?_, ?_, ?_, ?_⟩
    · simp [change_active_entry, hb, hr, hnx, random_finish, finish_new]
    · cases hold : get_active_entry s <;>
        simp [change_active_entry, hb, hr, hnx, hold, random_finish, finish_new,
              set_active, updateClamp]
    · cases hold : get_active_entry s <;>
        simp [change_active_entry, hb, hr, hnx, hold, random_finish, finish_new,
              set_active, updateClamp]
    · cases hold : get_active_entry s <;>
        simp [change_active_entry, hb, hr, hnx, hold, random_finish, finish_new,
              set_active, updateClamp]
    · cases hold : get_active_entry s with
      | none =>
        exact get_active_entry_after_set hbuf hu hnmem (Or.inl ⟨hold,
          by simp [change_active_entry, hb, hr, hnx, hold, random_finish, finish_new,
                   set_active, updateClamp]⟩)
      | some o =>
        exact get_active_entry_after_set hbuf hu hnmem (Or.inr ⟨o, hold,
          by simp [change_active_entry, hb, hr, hnx, hold, random_finish, finish_new,
                   set_active, updateClamp]⟩)
  · -- draw from random_left
    intro hnx hl
    have hlpos : 0 < s.random_left.length := List.length_pos.mpr hl
    have hmem : s.random_left.getD (k % s.random_left.length) 0 ∈ s.random_left :=
      getD_mem_of_lt (Nat.mod_lt k hlpos)
    refine ⟨s.random_left.getD (k % s.random_left.length) 0, rfl, hmem, ?_, ?_, ?_, ?_, ?_⟩
    · simp [change_active_entry, hb, hr, hnx, hl, random_finish, finish_new]
    · cases hold : get_active_entry s <;>
        simp [change_active_entry, hb, hr, hnx, hl, hold, random_finish, finish_new,
              set_active, updateClamp]
    · cases hold : get_active_entry s <;>
        simp [change_active_entry, hb, hr, hnx, hl, hold, random_finish, finish_new,
              set_active, updateClamp]
    · cases hold : get_active_entry s <;>
        simp [change_active_entry, hb, hr, hnx, hl, hold, random_finish, finish_new,
              set_active, updateClamp]
    · cases hold : get_active_entry s with
      | none =>
        exact get_active_entry_after_set hbuf hu (hleftb _ hmem) (Or.inl ⟨hold,
          by simp [change_active_entry, hb, hr, hnx, hl, hold, random_finish, finish_new,
                   set_active, updateClamp]⟩)
      | some o =>
        exact get_active_entry_after_set hbuf hu (hleftb _ hmem) (Or.inr ⟨o, hold,
          by simp [change_active_entry, hb, hr, hnx, hl, hold, random_finish, finish_new,
                   set_active, updateClamp]⟩)
  · -- refill from the buffer under repeat, then draw
    intro hnx hl hrep
    have hbpos : 0 < s.buffer.length := List.length_pos.mpr hb
    have hmem : s.buffer.getD (k % s.buffer.length) 0 ∈ s.buffer :=
      getD_mem_of_lt (Nat.mod_lt k hbpos)
    refine ⟨s.buffer.getD (k % s.buffer.length) 0, rfl, hmem, ?_, ?_, ?_, ?_, ?_⟩
    · simp [change_active_entry, hb, hr, hnx, hl, hrep, random_finish, finish_new]
    · cases hold : get_active_entry s <;>
        simp [change_active_entry, hb, hr, hnx, hl, hrep, hold, random_finish,
              finish_new, set_active, updateClamp]
    · cases hold : get_active_entry s <;>
        simp [change_active_entry, hb, hr, hnx, hl, hrep, hold, random_finish,
              finish_new, set_active, updateClamp]
    · cases hold : get_active_entry s <;>
        simp [change_active_entry, hb, hr, hnx, hl, hrep, hold, random_finish,
              finish_new, set_active, updateClamp]
    · cases hold : get_active_entry s with
      | none =>
        exact get_active_entry_after_set hbuf hu hmem (Or.inl ⟨hold,
          by simp [change_active_entry, hb, hr, hnx, hl, hrep, hold, random_finish,
                   finish_new, set_active, updateClamp]⟩)
      | some o =>
        exact get_active_entry_after_set hbuf hu hmem (Or.inr ⟨o, hold,
          by simp [change_active_entry, hb, hr, hnx, hl, hrep, hold, random_finish,
                   finish_new, set_active, updateClamp]⟩)
  · -- exhausted with repeat off: no further track, state unchanged
    intro hnx hl hrep
    simp [change_active_entry, hb, hr, hnx, hl, hrep]

def sC1 : PW := ⟨[0, 1], 0, [0], [], true, false, false, [0], [1], []⟩

theorem C1_random_forward_witness :
    (change_active_entry sC1 1 0).1 = some 1 ∧
    get_active_entry (change_active_entry sC1 1 0).2 = some 1 :=
  let h := (C1_random_forward sC1 0 rfl (by decide) (by decide) (by decide)
    (by decide)).1 1 (by decide)
  ⟨h.1, h.2.2.2.2⟩

end Mcplay

namespace Mcplay

theorem mem_dropLast_or_getLast {l : List Nat} {t : Nat} (h : l ≠ []) (ht : t ∈ l) :
    t ∈ l.dropLast ∨ t = l.getLast?.getD 0 := by
  have hd := List.dropLast_append_getLast h
  have hg := List.getLast?_eq_getLast l h
  rw [← hd] at ht
  rcases List.mem_append.mp ht with h1 | h2
  · exact Or.inl h1
  · right
    rw [hg]
    simpa using h2

/-- The possible pool transitions of one `change_active_entry` call:
unchanged, redo-stack pop, draw from `random_left`, repeat-refill draw
from the buffer, or the backward move of the history tail. -/
theorem change_active_entry_pools (s : PW) (d : Int) (k : Nat) :
    ((change_active_entry s d k).2.random_prev = s.random_prev ∧
     (change_active_entry s d k).2.random_next = s.random_next ∧
     (change_active_entry s d k).2.random_left = s.random_left) ∨
    (∃ n, s.random_next.getLast? = some n ∧
      (change_active_entry s d k).2.random_prev = s.random_prev.erase n ++ [n] ∧
      (change_active_entry s d k).2.random_next = s.random_next.dropLast ∧
      (change_active_entry s d k).2.random_left = s.random_left) ∨
    (∃ n, n ∈ s.random_left ∧
      (change_active_entry s d k).2.random_prev = s.random_prev.erase n ++ [n] ∧
      (change_active_entry s d k).2.random_next = s.random_next ∧
      (change_active_entry s d k).2.random_left = s.random_left.erase n) ∨
    (∃ n, n ∈ s.buffer ∧
      (change_active_entry s d k).2.random_prev = s.random_prev.erase n ++ [n] ∧
      (change_active_entry s d k).2.random_next = s.random_next ∧
      (change_active_entry s d k).2.random_left = s.buffer.erase n) ∨
    (s.random_prev.length > 1 ∧
      (change_active_entry s d k).2.random_prev = s.random_prev.dropLast ∧
      (change_active_entry s d k).2.random_next =
        s.random_next ++ [s.random_prev.getLast?.getD 0] ∧
      (change_active_entry s d k).2.random_left = s.random_left) := by
  by_cases hb : s.buffer = []
  · exact Or.inl (by refine ⟨?_, ?_, ?_⟩ <;> simp [change_active_entry, hb])
  · cases hrb : s.random with
    | false =>
      refine Or.inl ⟨?_, ?_, ?_⟩ <;>
      · cases hold : get_active_entry s with
        | none =>
          simp [change_active_entry, hb, hrb, hold, finish_new, set_active, updateClamp]
        | some o =>
          by_cases hio : ¬ ((0 ≤ (s.buffer.indexOf o : Int) + d ∧
              (s.buffer.indexOf o : Int) + d < (s.buffer.length : Int)) ∨ s.rep = true)
          · simp only [change_active_entry, if_neg hb, hrb, hold]
            simp [hio]
          · simp only [change_active_entry, if_neg hb, hrb, hold]
            simp [hio, finish_new, set_active, updateClamp]
    | true =>
      by_cases hd : d > 0
      · cases hnx : s.random_next.getLast? with
        | some n =>
          refine Or.inr (Or.inl ⟨n, rfl, ?_, ?_, ?_⟩) <;>
          · cases hold : get_active_entry s <;>
              simp [change_active_entry, hb, hrb, hd, hnx, hold, random_finish,
                    finish_new, set_active, updateClamp]
        | none =>
          by_cases hl : s.random_left = []
          · cases hrep : s.rep with
            | true =>
              have hbpos : 0 < s.buffer.length := List.length_pos.mpr hb
              refine Or.inr (Or.inr (Or.inr (Or.inl
                ⟨s.buffer.getD (k % s.buffer.length) 0,
                 getD_mem_of_lt (Nat.mod_lt k hbpos), ?_, ?_, ?_⟩))) <;>
              · cases hold : get_active_entry s <;>
                  simp [change_active_entry, hb, hrb, hd, hnx, hl, hrep, hold,
                        random_finish, finish_new, set_active, updateClamp]
            | false =>
              refine Or.inl ⟨?_, ?_, ?_⟩ <;>
                simp [change_active_entry, hb, hrb, hd, hnx, hl, hrep]
          · have hlpos : 0 < s.random_left.length := List.length_pos.mpr hl
            refine Or.inr (Or.inr (Or.inl
              ⟨s.random_left.getD (k % s.random_left.length) 0,
               getD_mem_of_lt (Nat.mod_lt k hlpos), ?_, ?_, ?_⟩)) <;>
            · cases hold : get_active_entry s <;>
                simp [change_active_entry, hb, hrb, hd, hnx, hl, hold, random_finish,
                      finish_new, set_active, updateClamp]
      · by_cases hp : s.random_prev.length > 1
        · refine Or.inr (Or.inr (Or.inr (Or.inr ⟨hp, ?_, ?_, ?_⟩))) <;>
          · cases hold : get_active_entry s <;>
              simp [change_active_entry, hb, hrb, hd, hp, hold, finish_new,
                    set_active, updateClamp]
        · refine Or.inl ⟨?_, ?_, ?_⟩ <;> simp [change_active_entry, hb, hrb, hd, hp]

/-- One `change_active_entry` call keeps every playlist track inside the
union of the three pools. -/
theorem coverage_change (s : PW) (d : Int) (k : Nat) (h : PoolsCover s) :
    PoolsCover (change_active_entry s d k).2 := by
  have hbuf := (change_active_entry_flags s d k).1
  intro t ht
  rw [hbuf] at ht
  rcases change_active_entry_pools s d k with
    ⟨hp, hn, hl⟩ | ⟨n, hgl, hp, hn, hl⟩ | ⟨n, hnl, hp, hn, hl⟩ | ⟨n, hnb, hp, hn, hl⟩ |
    ⟨hlen, hp, hn, hl⟩
  · rw [hp, hn, hl]; exact h t ht
  · rw [hp, hn, hl]
    rcases h t ht with htp | htn | htl
    · left
      by_cases he : t = n
      · subst he; simp
      · exact List.mem_append.mpr (Or.inl ((List.mem_erase_of_ne he).mpr htp))
    · have hne : s.random_next ≠ [] := by
        intro hh; rw [hh] at hgl; cases hgl
      rcases mem_dropLast_or_getLast hne htn with h1 | h2
      · right; left; exact h1
      · left
        rw [hgl] at h2
        simp only [Option.getD_some] at h2
        subst h2; simp
    · right; right; exact htl
  · rw [hp, hn, hl]
    rcases h t ht with htp | htn | htl
    · left
      by_cases he : t = n
      · subst he; simp
      · exact List.mem_append.mpr (Or.inl ((List.mem_erase_of_ne he).mpr htp))
    · right; left; exact htn
    · by_cases he : t = n
      · subst he; left; simp
      · right; right; exact (List.mem_erase_of_ne he).mpr htl
  · rw [hp, hn, hl]
    by_cases he : t = n
    · subst he; left; simp
    · right; right; exact (List.mem_erase_of_ne he).mpr ht
  · rw [hp, hn, hl]
    have hne : s.random_prev ≠ [] := by
      intro hh; rw [hh] at hlen; simp at hlen
    rcases h t ht with htp | htn | htl
    · rcases mem_dropLast_or_getLast hne htp with h1 | h2
      · left; exact h1
      · right; left
        exact List.mem_append.mpr (Or.inr (by simp [h2]))
    · right; left; exact List.mem_append.mpr (Or.inl htn)
    · right; right; exact htl

theorem coverage_toggle (s : PW) : PoolsCover (command_toggle_random s) := by
  intro t ht
  right; right
  simpa [command_toggle_random] using ht

theorem filter_length_eq_all {l : List Nat} {p : Nat → Bool}
    (h : (l.filter p).length = l.length) : ∀ a ∈ l, p a := by
  simp at h
  exact h

theorem mem_eraseIdx_ne {l : List Nat} {i t : Nat}
    (hnd : l.Nodup) (hi : i < l.length) (ht : t ∈ l.eraseIdx i) :
    t ∈ l ∧ t ≠ l.getD i 0 := by
  induction l generalizing i with
  | nil => cases ht
  | cons x xs ih =>
    cases i with
    | zero =>
      simp only [List.eraseIdx] at ht
      refine ⟨List.mem_cons_of_mem _ ht, ?_⟩
      intro he
      have hx : x ∉ xs := (List.nodup_cons.mp hnd).1
      rw [List.getD_cons_zero] at he
      exact hx (he ▸ ht)
    | succ j =>
      simp only [List.eraseIdx] at ht
      have hj : j < xs.length := by
        simpa using hi
      rcases List.mem_cons.mp ht with rfl | ht'
      · refine ⟨List.mem_cons_self _ _, ?_⟩
        rw [List.getD_cons_succ]
        intro he
        have hx : t ∉ xs := (List.nodup_cons.mp hnd).1
        exact hx (he ▸ getD_mem_of_lt hj)
      · obtain ⟨h1, h2⟩ := ih (List.nodup_cons.mp hnd).2 hj ht'
        exact ⟨List.mem_cons_of_mem _ h1, by rwa [List.getD_cons_succ]⟩

theorem delete_buffer_sublist (s : PW) :
    List.Sublist (command_delete s).buffer s.buffer := by
  by_cases hb : s.buffer = []
  · simp [command_delete, hb]
  · by_cases hlen : s.buffer.length > (not_tagged s.taggedIds s.buffer).length
    · have hres : (command_delete s).buffer = not_tagged s.taggedIds s.buffer := by
        by_cases hrand : s.random = true <;>
          simp [command_delete, hb, hlen, hrand, updateClamp]
      rw [hres]
      exact List.filter_sublist s.buffer
    · have hres : (command_delete s).buffer =
          (not_tagged s.taggedIds s.buffer).eraseIdx
            (min s.bufptr (s.buffer.length - 1)) := by
        by_cases hrand : s.random = true <;>
          simp [command_delete, hb, hlen, hrand, updateClamp]
      rw [hres]
      exact List.Sublist.trans
        (List.eraseIdx_sublist _ _) (List.filter_sublist s.buffer)

/-- `command_delete` keeps every remaining playlist track inside the pool
union: the same tag filter is applied to the buffer and to the pools. -/
theorem coverage_delete (s : PW) (h : PoolsCover s) (hnd : s.buffer.Nodup) :
    PoolsCover (command_delete s) := by
  by_cases hb : s.buffer = []
  · intro t ht
    have hres : (command_delete s).buffer = s.buffer := by simp [command_delete, hb]
    rw [hres, hb] at ht
    cases ht
  · have hbpos : 0 < s.buffer.length := List.length_pos.mpr hb
    by_cases hlen : s.buffer.length > (not_tagged s.taggedIds s.buffer).length
    · -- some entries were tagged: buffer and pools filtered by the same tags
      cases hrand : s.random with
      | true =>
        have hres : (command_delete s).buffer = not_tagged s.taggedIds s.buffer ∧
            (command_delete s).random_prev = not_tagged s.taggedIds s.random_prev ∧
            (command_delete s).random_next = not_tagged s.taggedIds s.random_next ∧
            (command_delete s).random_left = not_tagged s.taggedIds s.random_left := by
          refine ⟨?_, ?_, ?_, ?_⟩ <;>
            simp [command_delete, hb, hlen, hrand, updateClamp]
        obtain ⟨hrb, hrp, hrn, hrl⟩ := hres
        intro t ht
        rw [hrb] at ht
        rw [hrp, hrn, hrl]
        rcases List.mem_filter.mp ht with ⟨htb, htag⟩
        rcases h t htb with hp | hn | hl
        · exact Or.inl (List.mem_filter.mpr ⟨hp, htag⟩)
        · exact Or.inr (Or.inl (List.mem_filter.mpr ⟨hn, htag⟩))
        · exact Or.inr (Or.inr (List.mem_filter.mpr ⟨hl, htag⟩))
      | false =>
        have hres : (command_delete s).buffer = not_tagged s.taggedIds s.buffer ∧
            (command_delete s).random_prev = s.random_prev ∧
            (command_delete s).random_next = s.random_next ∧
            (command_delete s).random_left = s.random_left := by
          refine ⟨?_, ?_, ?_, ?_⟩ <;>
            simp [command_delete, hb, hlen, hrand, updateClamp]
        obtain ⟨hrb, hrp, hrn, hrl⟩ := hres
        intro t ht
        rw [hrb] at ht
        rw [hrp, hrn, hrl]
        exact h t (List.mem_filter.mp ht).1
    · -- nothing tagged: the current entry is tagged and removed by index
      have hall : ∀ a ∈ s.buffer, decide (a ∉ s.taggedIds) = true := by
        apply filter_length_eq_all
        have hle := s.buffer.length_filter_le (fun t => decide (t ∉ s.taggedIds))
        unfold not_tagged at hlen
        omega
      have hbuf1 : not_tagged s.taggedIds s.buffer = s.buffer := by
        unfold not_tagged
        exact List.filter_eq_self.mpr hall
      have hptr : min s.bufptr (s.buffer.length - 1) < s.buffer.length := by omega
      cases hrand : s.random with
      | true =>
        have hres : (command_delete s).buffer =
              s.buffer.eraseIdx (min s.bufptr (s.buffer.length - 1)) ∧
            (command_delete s).random_prev =
              not_tagged (s.buffer.getD (min s.bufptr (s.buffer.length - 1)) 0 ::
                s.taggedIds) s.random_prev ∧
            (command_delete s).random_next =
              not_tagged (s.buffer.getD (min s.bufptr (s.buffer.length - 1)) 0 ::
                s.taggedIds) s.random_next ∧
            (command_delete s).random_left =
              not_tagged (s.buffer.getD (min s.bufptr (s.buffer.length - 1)) 0 ::
                s.taggedIds) s.random_left := by
          refine ⟨?_, ?_, ?_, ?_⟩ <;>
            simp [command_delete, hb, hlen, hrand, updateClamp, hbuf1]
        obtain ⟨hrb, hrp, hrn, hrl⟩ := hres
        intro t ht
        rw [hrb] at ht
        rw [hrp, hrn, hrl]
        obtain ⟨htb, htne⟩ := mem_eraseIdx_ne hnd hptr ht
        have htag : decide (t ∉ (s.buffer.getD (min s.bufptr (s.buffer.length - 1)) 0 ::
            s.taggedIds)) = true := by
          have := hall t htb
          simp only [decide_eq_true_eq] at this ⊢
          intro hmem
          rcases List.mem_cons.mp hmem with he | hmem'
          · exact htne he
          · exact this hmem'
        rcases h t htb with hp | hn | hl
        · exact Or.inl (List.mem_filter.mpr ⟨hp, htag⟩)
        · exact Or.inr (Or.inl (List.mem_filter.mpr ⟨hn, htag⟩))
        · exact Or.inr (Or.inr (List.mem_filter.mpr ⟨hl, htag⟩))
      | false =>
        have hres : (command_delete s).buffer =
              s.buffer.eraseIdx (min s.bufptr (s.buffer.length - 1)) ∧
            (command_delete s).random_prev = s.random_prev ∧
            (command_delete s).random_next = s.random_next ∧
            (command_delete s).random_left = s.random_left := by
          refine ⟨?_, ?_, ?_, ?_⟩ <;>
            simp [command_delete, hb, hlen, hrand, updateClamp, hbuf1]
        obtain ⟨hrb, hrp, hrn, hrl⟩ := hres
        intro t ht
        rw [hrb] at ht
        rw [hrp, hrn, hrl]
        exact h t (mem_eraseIdx_ne hnd hptr ht).1

theorem navStep_buffer_nodup (s : PW) (op : NavOp) (h : s.buffer.Nodup) :
    (navStep s op).buffer.Nodup := by
  cases op with
  | toggle => simpa [navStep, command_toggle_random] using h
  | forward k =>
    show (change_active_entry s 1 k).2.buffer.Nodup
    rw [(change_active_entry_flags s 1 k).1]; exact h
  | backward =>
    show (change_active_entry s (-1) 0).2.buffer.Nodup
    rw [(change_active_entry_flags s (-1) 0).1]; exact h
  | delete => exact h.sublist (delete_buffer_sublist s)

theorem navStep_coverage (s : PW) (op : NavOp)
    (hnd : s.buffer.Nodup) (h : PoolsCover s) :
    PoolsCover (navStep s op) := by
  cases op with
  | toggle => exact coverage_toggle s
  | forward k => exact coverage_change s 1 k h
  | backward => exact coverage_change s (-1) 0 h
  | delete => exact coverage_delete s h hnd

theorem runOps_coverage (s : PW) (ops : List NavOp)
    (hnd : s.buffer.Nodup) (h : PoolsCover s) :
    PoolsCover (runOps s ops) := by
  induction ops generalizing s with
  | nil => exact h
  | cons op ops ih =>
    exact ih (navStep s op) (navStep_buffer_nodup s op hnd) (navStep_coverage s op hnd h)

end Mcplay

namespace Mcplay

def sC3 : PW := ⟨[0, 1], 0, [], [], false, true, false, [], [], []⟩

/-- C3 counterexample: with repeat enabled, once `random_left` runs out a
forward advance refills it with all tracks while `random_prev` keeps its
full history, so a track can sit in `random_prev` and `random_left` at the
same time.  Concretely, from a fresh random toggle on the two-track
playlist `[0, 1]`, three forward advances (drawing index 0 each time)
leave track `1` counted twice in the pool union — the pools are not an
exactly-once partition as the claim states. -/
theorem C3_exact_partition_fails :
    ¬ ExactPartition (runOps sC3 [.toggle, .forward 0, .forward 0, .forward 0]) ∧
    1 ∈ (runOps sC3 [.toggle, .forward 0, .forward 0, .forward 0]).buffer ∧
    ((runOps sC3 [.toggle, .forward 0, .forward 0, .forward 0]).random_prev ++
     (runOps sC3 [.toggle, .forward 0, .forward 0, .forward 0]).random_next ++
     (runOps sC3 [.toggle, .forward 0, .forward 0, .forward 0]).random_left).count 1
      = 2 := by
  refine ⟨?_, ?_, ?_⟩ <;> decide

/-- C3 amended: after toggling random mode on, every sequence of navigator
operations (toggling, forward, backward, delete) keeps the pools covering
the playlist — every track in the buffer belongs to at least one of
`random_prev`, `random_next`, `random_left`.  Exactly-once counting
fails only at a repeat-refill, which re-inserts into `random_left` tracks
still held by `random_prev`/`random_next`. -/
theorem C3_pools_cover_playlist (s0 : PW) (ops : List NavOp)
    (hnd : s0.buffer.Nodup) :
    PoolsCover (runOps (command_toggle_random s0) ops) := by
  apply runOps_coverage
  · simpa [command_toggle_random] using hnd
  · exact coverage_toggle s0

theorem C3_pools_cover_playlist_witness :
    PoolsCover (runOps (command_toggle_random sC3)
      [.forward 0, .forward 0, .forward 0, .backward, .delete]) :=
  C3_pools_cover_playlist sC3 [.forward 0, .forward 0, .forward 0, .backward, .delete]
    (by decide)

end Mcplay

namespace Mcplay

/-- Invariant relating the active flag to the random history, as
maintained by pure navigation (no playlist mutation): random mode is on,
the pools only hold playlist tracks, and a playlist entry is flagged
active exactly when it is the tail of `random_prev`. -/
def NavInv (s : PW) : Prop :=
  s.random = true ∧
  (∀ t ∈ s.random_prev, t ∈ s.buffer) ∧
  (∀ t ∈ s.random_next, t ∈ s.buffer) ∧
  (∀ t ∈ s.random_left, t ∈ s.buffer) ∧
  (∀ t ∈ s.buffer, (t ∈ s.activeIds ↔ s.random_prev.getLast? = some t))

instance (s : PW) : Decidable (NavInv s) := by
  unfold NavInv; infer_instance

def sC2a : PW := ⟨[0, 1], 0, [], [], false, false, false, [], [], []⟩

def sC2b : PW := ⟨[0, 1], 0, [], [], false, true, false, [], [], []⟩

/-- C2 counterexample: two reachable random-mode states with two distinct
visited tracks where forward-then-backward does not restore the active
track.  First, with repeat off and the playlist exhausted, the forward
call returns `none` and changes nothing, but the backward call still pops
the history.  Second, with repeat on, the refill draw can return the
already-active track, so the subsequent backward call lands on the
previous track instead. -/
theorem C2_forward_backward_fails :
    ((∃ a ∈ (runOps sC2a [.toggle, .forward 0, .forward 0]).random_prev,
      ∃ b ∈ (runOps sC2a [.toggle, .forward 0, .forward 0]).random_prev, a ≠ b) ∧
     get_active_entry (runOps sC2a [.toggle, .forward 0, .forward 0]) = some 1 ∧
     (change_active_entry (runOps sC2a [.toggle, .forward 0, .forward 0]) 1 0).1 = none ∧
     get_active_entry (change_active_entry
       (change_active_entry (runOps sC2a [.toggle, .forward 0, .forward 0]) 1 0).2
       (-1) 0).2 = some 0) ∧
    ((∃ a ∈ (runOps sC2b [.toggle, .forward 0, .forward 0]).random_prev,
      ∃ b ∈ (runOps sC2b [.toggle, .forward 0, .forward 0]).random_prev, a ≠ b) ∧
     get_active_entry (runOps sC2b [.toggle, .forward 0, .forward 0]) = some 1 ∧
     (change_active_entry (runOps sC2b [.toggle, .forward 0, .forward 0]) 1 1).1 = some 1 ∧
     get_active_entry (change_active_entry
       (change_active_entry (runOps sC2b [.toggle, .forward 0, .forward 0]) 1 1).2
       (-1) 0).2 = some 0) := by
  constructor <;> refine ⟨?_, ?_, ?_, ?_⟩ <;> decide

theorem erase_ne_last {ps : List Nat} {a0 n : Nat} (h : n ≠ a0) :
    ∃ q, (ps ++ [a0]).erase n = q ++ [a0] := by
  by_cases hn : n ∈ ps
  · exact ⟨ps.erase n, List.erase_append_left _ hn⟩
  · refine ⟨ps, ?_⟩
    rw [List.erase_append_right _ hn]
    simp [List.erase_cons, h.symm]

/-- Backward step after a successful forward step: if the history ends in
`[..., a0, n]` and `n` is the (unique) active entry, the backward move
pops `n` and re-activates `a0`. -/
theorem backward_restores (s1 : PW) (q : List Nat) (a0 n : Nat)
    (hr1 : s1.random = true)
    (hbne1 : s1.buffer ≠ [])
    (hprev1 : s1.random_prev = q ++ [a0] ++ [n])
    (ha0b1 : a0 ∈ s1.buffer)
    (hu1 : UniqActive s1)
    (hget1 : get_active_entry s1 = some n) :
    get_active_entry (change_active_entry s1 (-1) 0).2 = some a0 := by
  have hlen1 : s1.random_prev.length > 1 := by
    rw [hprev1]
    simp
  have e_buf := (change_active_entry_flags s1 (-1) 0).1
  have hdl : s1.random_prev.dropLast = q ++ [a0] := by
    rw [hprev1]
    exact List.dropLast_concat
  have hnew : s1.random_prev.dropLast.getLast?.getD 0 = a0 := by
    rw [hdl]
    simp [List.getLast?_concat]
  have e_flags : (change_active_entry s1 (-1) 0).2.activeIds =
      insertId a0 (removeId n s1.activeIds) := by
    simp [change_active_entry, hbne1, hr1, hlen1, hget1, finish_new, set_active,
          updateClamp, hdl, hnew]
  exact get_active_entry_after_set e_buf hu1 ha0b1 (Or.inr ⟨n, hget1, e_flags⟩)

/-- Common tail for the three successful forward branches of C2. -/
theorem fwd_bwd_tail (s : PW) (k : Nat) (n a0 : Nat) (q : List Nat)
    (hu : UniqActive s) (hget : get_active_entry s = some a0)
    (ha0b : a0 ∈ s.buffer) (hbne : s.buffer ≠ [])
    (hnbuf : n ∈ s.buffer)
    (hq : s.random_prev.erase n = q ++ [a0])
    (e_rand : (change_active_entry s 1 k).2.random = true)
    (e_prev : (change_active_entry s 1 k).2.random_prev = s.random_prev.erase n ++ [n])
    (e_flags : (change_active_entry s 1 k).2.activeIds =
      insertId n (removeId a0 s.activeIds)) :
    get_active_entry (change_active_entry (change_active_entry s 1 k).2 (-1) 0).2 =
      some a0 := by
  have e_buf := (change_active_entry_flags s 1 k).1
  have hget1 : get_active_entry (change_active_entry s 1 k).2 = some n := by
    unfold get_active_entry
    rw [e_buf, e_flags]
    exact find?_insert_remove hu (by simpa [get_active_entry] using hget) hnbuf
  have hu1 : UniqActive (change_active_entry s 1 k).2 := by
    intro a ha b hb hfa hfb
    rw [e_buf] at ha hb
    rw [e_flags] at hfa hfb
    exact uniq_of_clear_set hu (Or.inr (Or.inr ⟨a0, hget, n, rfl⟩)) a ha b hb hfa hfb
  exact backward_restores (change_active_entry s 1 k).2 q a0 n e_rand
    (by rw [e_buf]; exact hbne) (by rw [e_prev, hq]) (by rw [e_buf]; exact ha0b)
    hu1 hget1

/-- C2 amended: in random mode with no playlist mutation (states
satisfying `NavInv`), if at least two distinct tracks have been visited
and the forward call returns a track other than the currently active one,
then forward followed by backward restores the previously active track.
(The original claim fails when forward returns `none` on an exhausted
playlist with repeat off, and when a repeat-refill draw returns the
already-active track.) -/
theorem C2_forward_then_backward (s : PW) (k : Nat)
    (hinv : NavInv s)
    (hvis : ∃ a ∈ s.random_prev, ∃ b ∈ s.random_prev, a ≠ b)
    (hret : ∃ n, (change_active_entry s 1 k).1 = some n ∧
      get_active_entry s ≠ some n) :
    get_active_entry (change_active_entry (change_active_entry s 1 k).2 (-1) 0).2 =
      get_active_entry s := by
  obtain ⟨hr, hpb, hnb, hlb, hact⟩ := hinv
  obtain ⟨x, hx, y, hy, hxy⟩ := hvis
  have hpne : s.random_prev ≠ [] := List.ne_nil_of_mem hx
  have hgl : s.random_prev.getLast? = some (s.random_prev.getLast hpne) :=
    List.getLast?_eq_getLast _ hpne
  set a0 := s.random_prev.getLast hpne with ha0def
  have ha0p : a0 ∈ s.random_prev := List.mem_of_mem_getLast? hgl
  have ha0b : a0 ∈ s.buffer := hpb _ ha0p
  have hbne : s.buffer ≠ [] := List.ne_nil_of_mem ha0b
  have hget : get_active_entry s = some a0 := by
    unfold get_active_entry
    apply find?_unique ha0b
    · simpa using (hact a0 ha0b).mpr hgl
    · intro t ht hpt
      have h1 := (hact t ht).mp (by simpa using hpt)
      rw [hgl] at h1
      exact (Option.some.inj h1).symm
  have hu : UniqActive s := by
    intro a ha b hb hfa hfb
    have h1 := (hact a ha).mp hfa
    have h2 := (hact b hb).mp hfb
    rw [h1] at h2
    exact Option.some.inj h2
  obtain ⟨n, hn1, hndiff⟩ := hret
  have hna0 : n ≠ a0 := by
    intro he
    exact hndiff (he ▸ hget)
  have hdecomp : s.random_prev = s.random_prev.dropLast ++ [a0] := by
    conv_lhs => rw [← List.dropLast_append_getLast hpne]
  obtain ⟨q, hq⟩ : ∃ q, s.random_prev.erase n = q ++ [a0] := by
    rw [hdecomp]
    exact erase_ne_last hna0
  rw [hget]
  cases hnx : s.random_next.getLast? with
  | some m =>
    have hm : (change_active_entry s 1 k).1 = some m := by
      simp [change_active_entry, hbne, hr, hnx, random_finish, finish_new]
    rw [hm] at hn1
    have hmn : n = m := (Option.some.inj hn1).symm
    subst hmn
    have hnbuf : n ∈ s.buffer := hnb n (List.mem_of_mem_getLast? hnx)
    refine fwd_bwd_tail s k n a0 q hu hget ha0b hbne hnbuf hq ?_ ?_ ?_
    · cases hold : get_active_entry s <;>
        simp [change_active_entry, hbne, hr, hnx, hold, random_finish, finish_new,
              set_active, updateClamp]
    · cases hold : get_active_entry s <;>
        simp [change_active_entry, hbne, hr, hnx, hold, random_finish, finish_new,
              set_active, updateClamp]
    · simp [change_active_entry, hbne, hr, hnx, hget, random_finish, finish_new,
            set_active, updateClamp]
  | none =>
    by_cases hl : s.random_left = []
    · cases hrep : s.rep with
      | false =>
        exfalso
        have hnone : (change_active_entry s 1 k).1 = none := by
          simp [change_active_entry, hbne, hr, hnx, hl, hrep]
        rw [hnone] at hn1
        cases hn1
      | true =>
        have hbpos : 0 < s.buffer.length := List.length_pos.mpr hbne
        have hfst : (change_active_entry s 1 k).1 =
            some (s.buffer.getD (k % s.buffer.length) 0) := by
          simp [change_active_entry, hbne, hr, hnx, hl, hrep, random_finish, finish_new]
        rw [hfst] at hn1
        have hng : s.buffer.getD (k % s.buffer.length) 0 = n := Option.some.inj hn1
        have hng' : s.buffer[k % s.buffer.length]?.getD 0 = n := by simpa using hng
        have hnbuf : n ∈ s.buffer := hng ▸ getD_mem_of_lt (Nat.mod_lt k hbpos)
        refine fwd_bwd_tail s k n a0 q hu hget ha0b hbne hnbuf hq ?_ ?_ ?_
        · cases hold : get_active_entry s <;>
            simp [change_active_entry, hbne, hr, hnx, hl, hrep, hold, hng',
                  random_finish, finish_new, set_active, updateClamp]
        · cases hold : get_active_entry s <;>
            simp [change_active_entry, hbne, hr, hnx, hl, hrep, hold, hng',
                  random_finish, finish_new, set_active, updateClamp]
        · simp [change_active_entry, hbne, hr, hnx, hl, hrep, hget, hng',
                random_finish, finish_new, set_active, updateClamp]
    · have hlpos : 0 < s.random_left.length := List.length_pos.mpr hl
      have hfst : (change_active_entry s 1 k).1 =
          some (s.random_left.getD (k % s.random_left.length) 0) := by
        simp [change_active_entry, hbne, hr, hnx, hl, random_finish, finish_new]
      rw [hfst] at hn1
      have hng : s.random_left.getD (k % s.random_left.length) 0 = n :=
        Option.some.inj hn1
      have hng' : s.random_left[k % s.random_left.length]?.getD 0 = n := by
        simpa using hng
      have hnbuf : n ∈ s.buffer :=
        hlb _ (hng ▸ getD_mem_of_lt (Nat.mod_lt k hlpos))
      refine fwd_bwd_tail s k n a0 q hu hget ha0b hbne hnbuf hq ?_ ?_ ?_
      · cases hold : get_active_entry s <;>
          simp [change_active_entry, hbne, hr, hnx, hl, hold, hng',
                random_finish, finish_new, set_active, updateClamp]
      · cases hold : get_active_entry s <;>
          simp [change_active_entry, hbne, hr, hnx, hl, hold, hng',
                random_finish, finish_new, set_active, updateClamp]
      · simp [change_active_entry, hbne, hr, hnx, hl, hget, hng',
              random_finish, finish_new, set_active, updateClamp]

def sC2w : PW := ⟨[0, 1], 0, [1], [], true, false, false, [0, 1], [0], []⟩

theorem C2_forward_then_backward_witness :
    get_active_entry (change_active_entry (change_active_entry sC2w 1 0).2 (-1) 0).2 =
      get_active_entry sC2w :=
  C2_forward_then_backward sC2w 0 (by decide)
    ⟨0, List.mem_cons_self 0 [1], 1, by decide, by decide⟩
    ⟨0, by decide, by decide⟩

end Mcplay
